import Mathlib

/-!
Verification of the `0x` hex-dump tool (sources: `src/calc.rs`, `src/render.rs`,
`src/color.rs`, `src/main.rs`).

The development shallowly embeds the Rust sources into Lean:

* machine integers become `Nat` with explicit `% 2 ^ 64` (release-mode wrapping
  semantics) where the Rust code wraps;
* the RPN calculator (`Calc::execute`) becomes a fold of a step function over
  an explicit operand stack (a `List ℕ` whose head is the top of the stack);
* the expression parser (`Calc::from_arg_value`) becomes a fuel-indexed loop,
  so that its failure to make progress on whitespace is provable;
* the render engine (`RenderOpts::render`) becomes a state-passing function
  producing a list of output items (text and color escapes).  The floating
  point ramp-index scaling only selects the payload of a color escape; escapes
  are carried as items tagged with the calculator value (resp. the ASCII
  category) that selects the color, and the claims under study only concern the
  visible text, obtained by dropping the escape items;
* the gradient builder (`make_gradient`) is embedded over `ℚ`, with colors as
  triples of rationals in the hue/saturation/value space that the code
  converts anchors into (the RGB↔HSV conversions are treated as a primitive
  change of representation, as the specification does).
-/

namespace Ox

/-- Width constants of the machine integers used by `calc.rs`. -/
def U64 : ℕ := 2 ^ 64

def U32 : ℕ := 2 ^ 32

/-- `u64` interpreted as a signed 64-bit value (`b as i64` in `Op::Sra`). -/
def toI64 (n : ℕ) : ℤ := if n % U64 < 2 ^ 63 then (n % U64 : ℤ) else (n % U64 : ℤ) - U64

/-- Wrap an integer into the `i64` range (the result of `i64::wrapping_shl`). -/
def wrapI64 (z : ℤ) : ℤ := (z + 2 ^ 63).emod U64 - 2 ^ 63

/-- An integer reduced into the `u64` range (`as u64` on an `i64` result). -/
def toU64 (z : ℤ) : ℕ := (z.emod U64).toNat

/-- `u64::wrapping_add`. -/
def u64add (b a : ℕ) : ℕ := (b + a) % U64

/-- `u64::wrapping_sub`. -/
def u64sub (b a : ℕ) : ℕ := toU64 ((b : ℤ) - (a : ℤ))

/-- `u64::wrapping_mul`. -/
def u64mul (b a : ℕ) : ℕ := (b * a) % U64

/-- `b.checked_div(a).unwrap_or(0xff)`: division by zero yields the `0xff`
sentinel (src/calc.rs, `Op::Div`). -/
def u64div (b a : ℕ) : ℕ := if a = 0 then 0xff else b / a

/-- `b.checked_rem(a).unwrap_or(b)`: a zero divisor yields the dividend
(src/calc.rs, `Op::Rem`). -/
def u64rem (b a : ℕ) : ℕ := if a = 0 then b else b % a

/-- `b.wrapping_shl(a as u32)`: the shift amount is reduced `as u32` by the
cast and then modulo the 64-bit register width by `wrapping_shl`. -/
def u64shl (b a : ℕ) : ℕ := (b * 2 ^ (a % U32 % 64)) % U64

/-- `b.wrapping_shr(a as u32)`. -/
def u64shr (b a : ℕ) : ℕ := b % U64 / 2 ^ (a % U32 % 64)

/-- `Op::Sra` of src/calc.rs:
`(b as i64).wrapping_shl(64 - bits).wrapping_shr(a as u32 + 64 - bits) as u64`.
The first shift moves the `bits`-th bit of `b` into the machine sign bit; the
signed right shift then replicates it.  `a as u32 + 64 - bits` is `u32`
arithmetic (wrapping in release builds), and `wrapping_shr` masks the amount
modulo 64.  The arithmetic right shift of an `i64` is floor division by a
power of two, i.e. `Int.ediv`. -/
def u64sra (bits : ℕ) (b a : ℕ) : ℕ :=
  let up := wrapI64 (toI64 b * 2 ^ ((64 - bits) % 64))
  let amount := (((a % U32 : ℤ) + 64 - (bits : ℤ)).emod U32).toNat % 64
  toU64 (up.ediv (2 ^ amount))

/-- `u64::wrapping_neg`. -/
def u64neg (a : ℕ) : ℕ := toU64 (-(a : ℤ))

/-- `!a` on `u64` (bitwise complement). -/
def u64not (a : ℕ) : ℕ := U64 - 1 - a % U64

/-- The operations of the RPN calculator (`enum Op` of src/calc.rs). -/
inductive Op where
  | add | sub | mul | div | rem
  | and | or | xor
  | sll | srl | sra
  | not | neg
  | x
  | imm (y : ℕ)
deriving DecidableEq, Repr

/-- A binary operator arm of `Calc::execute`: pop `a`, pop `b` (each popping
`unwrap_or(0)` on an empty stack), push `f b a` masked. -/
def binStep (mask : ℕ) (f : ℕ → ℕ → ℕ) (stack : List ℕ) : List ℕ :=
  let a := stack.headD 0
  let s1 := stack.tail
  let b := s1.headD 0
  (f b a &&& mask) :: s1.tail

/-- A unary operator arm of `Calc::execute`: pop `a`, push `f a` masked. -/
def unStep (mask : ℕ) (f : ℕ → ℕ) (stack : List ℕ) : List ℕ :=
  (f (stack.headD 0) &&& mask) :: stack.tail

/-- A leaf arm of `Calc::execute`: push a value masked. -/
def pushMasked (mask : ℕ) (v : ℕ) (stack : List ℕ) : List ℕ :=
  (v &&& mask) :: stack

/-- One iteration of the `for op in &self.0` loop of `Calc::execute`.  The
mask is `(1 << bits) - 1`; `1u64 << bits` masks the shift amount modulo 64 in
release builds, hence the `% 64` (all call sites use `1 ≤ bits ≤ 40`). -/
def step (x bits : ℕ) (stack : List ℕ) (op : Op) : List ℕ :=
  let mask := 2 ^ (bits % 64) - 1
  match op with
  | .add => binStep mask u64add stack
  | .sub => binStep mask u64sub stack
  | .mul => binStep mask u64mul stack
  | .div => binStep mask u64div stack
  | .rem => binStep mask u64rem stack
  | .and => binStep mask (fun b a => b &&& a) stack
  | .or => binStep mask (fun b a => b ||| a) stack
  | .xor => binStep mask (fun b a => b ^^^ a) stack
  | .sll => binStep mask u64shl stack
  | .srl => binStep mask u64shr stack
  | .sra => binStep mask (u64sra bits) stack
  | .neg => unStep mask u64neg stack
  | .not => unStep mask u64not stack
  | .x => pushMasked mask x stack
  | .imm y => pushMasked mask y stack

/-- `Calc::execute` (src/calc.rs): clear the stack, seed it with `x`
(unmasked), run every operation, and return the final top of stack
(`unwrap_or(0)`). -/
def execute (ops : List Op) (x bits : ℕ) : ℕ :=
  (ops.foldl (step x bits) [x]).headD 0

lemma mem_of_mem_tail {α : Type _} {a : α} {l : List α} (h : a ∈ l.tail) : a ∈ l := by
  cases l with
  | nil => simp at h
  | cons b t => exact List.mem_cons_of_mem b h

/-- Every element of the stack produced by one step of `Calc::execute` is
either freshly masked or survives from the previous stack. -/
lemma step_mem_bound {x bits : ℕ} {stack : List ℕ} {op : Op} {v : ℕ}
    (hstack : ∀ w ∈ stack, w ≤ 2 ^ (bits % 64) - 1)
    (hv : v ∈ step x bits stack op) : v ≤ 2 ^ (bits % 64) - 1 := by
  have hmask : ∀ n : ℕ, n &&& (2 ^ (bits % 64) - 1) ≤ 2 ^ (bits % 64) - 1 :=
    fun n => Nat.and_le_right
  have htail : ∀ w ∈ stack.tail, w ≤ 2 ^ (bits % 64) - 1 :=
    fun w hw => hstack w (mem_of_mem_tail hw)
  have htail2 : ∀ w ∈ stack.tail.tail, w ≤ 2 ^ (bits % 64) - 1 :=
    fun w hw => htail w (mem_of_mem_tail hw)
  cases op <;>
    simp only [step, binStep, unStep, pushMasked, List.mem_cons] at hv <;>
    rcases hv with rfl | hv <;>
    first
      | exact hmask _
      | exact htail2 _ hv
      | exact htail _ hv
      | exact hstack _ hv

/-- The stack invariant of `Calc::execute` is preserved by the whole loop. -/
lemma foldl_step_bound {x bits : ℕ} (ops : List Op) (stack : List ℕ)
    (hstack : ∀ w ∈ stack, w ≤ 2 ^ (bits % 64) - 1) :
    ∀ v ∈ ops.foldl (step x bits) stack, v ≤ 2 ^ (bits % 64) - 1 := by
  induction ops generalizing stack with
  | nil => exact hstack
  | cons op rest ih =>
      intro v hv
      exact ih (step x bits stack op) (fun w hw => step_mem_bound hstack hw) v hv

/-- C1 counterexample: the claim quantifies over every parsed expression and
every 64-bit input, but `Calc::execute` seeds the stack with the input
unmasked, so the empty expression (parsed from the empty string, and the
default identity expression) returns an input of 256 unchanged at bit width
8, outside `[0, 2^8 - 1]`. -/
theorem execute_empty_escapes_mask :
    execute [] 256 8 = 256 ∧ ¬ execute [] 256 8 ≤ 2 ^ 8 - 1 := by
  decide

/-- C1 (amended): for every expression, every bit width in 1..64 and every
input value that itself fits in the bit width, `Calc::execute` returns a
value in `[0, 2^bit_width - 1]` (and, being a total function of the
embedding, it terminates without panicking). -/
theorem execute_in_range (ops : List Op) (x bits : ℕ)
    (hbits1 : 1 ≤ bits) (hbits : bits ≤ 63) (hx : x ≤ 2 ^ bits - 1) :
    execute ops x bits ≤ 2 ^ bits - 1 := by
  have hmod : bits % 64 = bits := Nat.mod_eq_of_lt (by omega)
  have hinit : ∀ w ∈ [x], w ≤ 2 ^ (bits % 64) - 1 := by
    intro w hw
    simp only [List.mem_singleton] at hw
    subst hw
    rwa [hmod]
  have hall := @foldl_step_bound x bits ops [x] hinit
  unfold execute
  cases hfold : (ops.foldl (step x bits) [x]) with
  | nil => simp
  | cons h t =>
      have := hall h (by rw [hfold]; exact List.mem_cons_self h t)
      simpa [hmod] using this

/-- Witness for `execute_in_range` at a concrete input. -/
theorem execute_in_range_witness :
    (1 ≤ 8 ∧ 8 ≤ 63 ∧ 3 ≤ 2 ^ 8 - 1) ∧ execute [Op.add] 3 8 ≤ 2 ^ 8 - 1 :=
  ⟨by decide, execute_in_range [Op.add] 3 8 (by decide) (by decide) (by decide)⟩

/-- C6 counterexample: the expression `"+"` does not evaluate to 0 for every
input; at input 1 and bit width 8 it evaluates to 1. -/
theorem plus_not_zero :
    execute [Op.add] 1 8 = 1 ∧ execute [Op.add] 1 8 ≠ 0 := by
  decide

/-- C6 (amended): `Calc::execute` seeds the stack with the current value, so
the single add of `"+"` pops the current value, pops a defaulted zero for the
missing second operand, and returns the current value masked to the bit
width — 0 only when the input is 0 modulo `2^bit_width`. -/
theorem plus_returns_input_masked (x bits : ℕ) (hx : x < U64) (hbits : bits ≤ 63) :
    execute [Op.add] x bits = x % 2 ^ bits := by
  have hmod : bits % 64 = bits := Nat.mod_eq_of_lt (by omega)
  have hxmod : x % U64 = x := Nat.mod_eq_of_lt hx
  simp [execute, step, binStep, u64add, hmod, hxmod, Nat.and_pow_two_sub_one_eq_mod]

/-- Witness for `plus_returns_input_masked` at a concrete input. -/
theorem plus_returns_input_masked_witness :
    (1 < U64 ∧ 8 ≤ 63) ∧ execute [Op.add] 1 8 = 1 % 2 ^ 8 :=
  ⟨by constructor <;> decide, plus_returns_input_masked 1 8 (by decide) (by decide)⟩

/-- C8: in `Calc::execute`, division by zero pushes the sentinel `0xFF`
masked to the bit width, and a remainder with zero divisor pushes the
dividend (masked on push); the spec's `"x 0 x * /"` expression, which forces
a zero divisor, evaluates end-to-end to `0xFF` masked to the bit width.
Neither case errors: both are total steps. -/
theorem div_rem_defaults (bits b x : ℕ) (rest : List ℕ) (hbits : bits ≤ 63) :
    step x bits (0 :: b :: rest) Op.div = 0xff % 2 ^ bits :: rest
    ∧ step x bits (0 :: b :: rest) Op.rem = b % 2 ^ bits :: rest
    ∧ execute [Op.x, Op.imm 0, Op.x, Op.mul, Op.div] x bits = 0xff % 2 ^ bits := by
  have hmod : bits % 64 = bits := Nat.mod_eq_of_lt (by omega)
  refine ⟨?_, ?_, ?_⟩
  · simp [step, binStep, u64div, hmod, Nat.and_pow_two_sub_one_eq_mod]
  · simp [step, binStep, u64rem, hmod, Nat.and_pow_two_sub_one_eq_mod]
  · simp [execute, step, binStep, pushMasked, u64mul, u64div, hmod,
      Nat.and_pow_two_sub_one_eq_mod]

/-- Witness for `div_rem_defaults` at a concrete input. -/
theorem div_rem_defaults_witness :
    (8 ≤ 63)
    ∧ (step 3 8 (0 :: 5 :: []) Op.div = 0xff % 2 ^ 8 :: []
        ∧ step 3 8 (0 :: 5 :: []) Op.rem = 5 % 2 ^ 8 :: []
        ∧ execute [Op.x, Op.imm 0, Op.x, Op.mul, Op.div] 3 8 = 0xff % 2 ^ 8) :=
  ⟨by decide, div_rem_defaults 8 5 3 [] (by decide)⟩

/-- Rust `char::to_digit`-style digit value, as used by `u64::from_str_radix`:
decimal digits, then letters (either case) counting from 10, valid when below
the radix. -/
def digitVal (base : ℕ) (c : Char) : Option ℕ :=
  let v : Option ℕ :=
    if '0' ≤ c ∧ c ≤ '9' then some (c.toNat - '0'.toNat)
    else if 'a' ≤ c ∧ c ≤ 'z' then some (c.toNat - 'a'.toNat + 10)
    else if 'A' ≤ c ∧ c ≤ 'Z' then some (c.toNat - 'A'.toNat + 10)
    else none
  match v with
  | some d => if d < base then some d else none
  | none => none

def fromStrRadixGo (base : ℕ) : List Char → ℕ → Except String ℕ
  | [], acc => .ok acc
  | c :: rest, acc =>
      match digitVal base c with
      | none => .error "invalid digit found in string"
      | some d =>
          if U64 ≤ acc * base + d then .error "number too large to fit in target type"
          else fromStrRadixGo base rest (acc * base + d)

/-- `u64::from_str_radix` restricted to the alphanumeric digit runs the parser
feeds it (no sign characters can occur in such a run). -/
def fromStrRadix (digits : List Char) (base : ℕ) : Except String ℕ :=
  match digits with
  | [] => .error "cannot parse integer from empty string"
  | _ => fromStrRadixGo base digits 0

/-- The chunk of `Op`s a single-character operator maps to in
`Calc::from_arg_value`, or `none` for an unrecognized character. -/
def singleCharOp (c : Char) : Option Op :=
  if c = '+' then some .add
  else if c = '-' then some .sub
  else if c = '*' then some .mul
  else if c = '/' then some .div
  else if c = '%' then some .rem
  else if c = '~' then some .neg
  else if c = '&' then some .and
  else if c = '|' then some .or
  else if c = '^' then some .xor
  else if c = '!' then some .not
  else if c = 'x' then some .x
  else none

/-- The `while let Some(first) = value.chars().next()` loop of
`Calc::from_arg_value` (src/calc.rs), indexed by fuel so that its behavior on
whitespace is expressible: `.ok none` means the fuel ran out with the loop
still running, `.ok (some ops)` is a completed parse, `.error` a parse error.
The whitespace arm reproduces the source's `continue`, which does not advance
`value`. -/
def parseLoop (fuel : ℕ) (value : List Char) (ops : List Op) :
    Except String (Option (List Op)) :=
  match fuel with
  | 0 => .ok none
  | fuel + 1 =>
    match value with
    | [] => .ok (some ops)
    | c :: rest =>
      if c = ' ' ∨ c = '\t' ∨ c = '\r' ∨ c = '\n' then
        parseLoop fuel value ops
      else if '0' ≤ c ∧ c ≤ '9' then
        let stripped : List Char × ℕ :=
          match value with
          | '0' :: 'x' :: r => (r, 16)
          | _ => (value, 10)
        let digits := stripped.1.takeWhile Char.isAlphanum
        let after := stripped.1.dropWhile Char.isAlphanum
        match fromStrRadix digits stripped.2 with
        | .error e => .error e
        | .ok n => parseLoop fuel after (ops ++ [Op.imm n])
      else if c = '<' ∨ c = '>' then
        match value with
        | '<' :: '<' :: r => parseLoop fuel r (ops ++ [Op.sll])
        | '>' :: '>' :: '>' :: r => parseLoop fuel r (ops ++ [Op.sra])
        | '>' :: '>' :: r => parseLoop fuel r (ops ++ [Op.srl])
        | _ => .error "unrecognized shift operator"
      else
        match singleCharOp c with
        | some op => parseLoop fuel rest (ops ++ [op])
        | none => .error ("unrecognized character: " ++ c.toString)

/-- The whitespace arm makes no progress: with a blank at the head of the
input the loop consumes all its fuel without terminating. -/
lemma parseLoop_blank_noprogress :
    ∀ fuel rest ops, parseLoop fuel (' ' :: rest) ops = .ok none := by
  intro fuel
  induction fuel with
  | zero => intro rest ops; rfl
  | succ n ih =>
      intro rest ops
      show parseLoop (n + 1) (' ' :: rest) ops = .ok none
      rw [parseLoop]
      rw [if_pos (Or.inl rfl)]
      exact ih rest ops

/-- C4: parsing does not terminate on every input: the whitespace arm of
`Calc::from_arg_value` executes `continue` without advancing the cursor, so
any input containing reachable whitespace — including the spec's own example
expression `"x x *"` — loops forever (every amount of fuel is exhausted). -/
theorem parse_whitespace_diverges :
    (∀ fuel rest ops, parseLoop fuel (' ' :: rest) ops = .ok none)
    ∧ (∀ fuel, parseLoop fuel ("x x *".toList) [] = .ok none) := by
  refine ⟨parseLoop_blank_noprogress, ?_⟩
  intro fuel
  cases fuel with
  | zero => rfl
  | succ n =>
      have hlist : ("x x *".toList) = 'x' :: ' ' :: 'x' :: ' ' :: '*' :: [] := rfl
      rw [hlist, parseLoop]
      rw [if_neg (by decide), if_neg (by decide), if_neg (by decide)]
      show parseLoop n (' ' :: ['x', ' ', '*']) [Op.x] = .ok none
      exact parseLoop_blank_noprogress n _ _

/-- C9: the arithmetic right shift sign-extends relative to the configured
bit width: at bit width 8, shifting the input `0x80` right by 1 with `Sra`
yields `0xC0` (the width-8 sign bit is replicated), not the `0x40` a plain
logical shift of the machine word would give. -/
theorem sra_sign_extends :
    execute [Op.imm 1, Op.sra] 0x80 8 = 0xC0
    ∧ execute [Op.imm 1, Op.sra] 0x80 8 ≠ 0x40 := by
  decide

/-- The uppercase/base guard of `real_main` (src/main.rs, lines 275-278):
`if eks.uppercase && eks.base == 16 { ... exit(1) }`, whose error message
reads "eks: -u cannot be used with base 64". -/
def uppercaseGuardRejects (uppercase : Bool) (base : ℕ) : Bool :=
  uppercase && base == 16

/-- Modelled from the spec for comparison: the guard the spec describes
rejects the uppercase flag exactly when the base is 64. -/
def specUppercaseGuardRejects (uppercase : Bool) (base : ℕ) : Bool :=
  uppercase && base == 64

/-- The chunk length in bytes chosen by `RenderOpts::render`
(src/render.rs, lines 84-89), matching on `log2_base`. -/
def chunkLenOf (log2Base : ℕ) : ℕ :=
  match log2Base with
  | 3 => 3
  | 5 => 5
  | 6 => 3
  | _ => 1

/-- `glyphs_per_byte = (8 * chunk_len) / self.log2_base`
(src/render.rs, line 90). -/
def glyphsPerByteOf (log2Base : ℕ) : ℕ :=
  8 * chunkLenOf log2Base / log2Base

/-- A color in the hue/saturation/value space the gradient anchors are
converted into, with exact rational components. -/
abbrev Hsv := ℚ × ℚ × ℚ

/-- Linear interpolation of control colors, componentwise on the converted
representation (the `Mix` palette uses when `Gradient::get` lands between two
control points). -/
def mix (a b : Hsv) (t : ℚ) : Hsv :=
  (a.1 + (b.1 - a.1) * t, a.2.1 + (b.2.1 - a.2.1) * t, a.2.2 + (b.2.2 - a.2.2) * t)

/-- The control-point list built by `make_gradient` (src/color.rs, lines
29-36): anchor `i` is paired with position `i as f32 / (len as f32 - 1.0)` —
the divisor is the output length, not the anchor count. -/
def makeGradientDomain (colors : List Hsv) (len : ℕ) : List (ℚ × Hsv) :=
  colors.enum.map fun p => ((p.1 : ℚ) / ((len : ℚ) - 1), p.2)

/-- Interior search of `Gradient::get` (models `palette::gradient::Gradient`):
walk consecutive control points and interpolate inside the first segment
whose upper position bounds `t`; past the last control point the last color
is returned. -/
def gradientGo (p0 : ℚ) (c0 : Hsv) : List (ℚ × Hsv) → ℚ → Hsv
  | [], _ => c0
  | (p1, c1) :: rest, t =>
      if t ≤ p1 then mix c0 c1 ((t - p0) / (p1 - p0))
      else gradientGo p1 c1 rest t

/-- `Gradient::get`: values at or below the first control point clamp to its
color. -/
def gradientGet : List (ℚ × Hsv) → ℚ → Hsv
  | [], _ => (0, 0, 0)
  | (p0, c0) :: rest, t => if t ≤ p0 then c0 else gradientGo p0 c0 rest t

/-- `Gradient::take(len)` (models the palette iterator): `len` samples evenly
spaced across the gradient's own domain, from its first control position to
its last. -/
def gradientTake (domain : List (ℚ × Hsv)) (len : ℕ) : List Hsv :=
  let lo := (domain.headD (0, (0, 0, 0))).1
  let hi := (domain.getLast?.getD (0, (0, 0, 0))).1
  (List.range len).map fun j : ℕ => gradientGet domain (lo + (hi - lo) * ((j : ℚ) / ((len : ℚ) - 1)))

/-- `make_gradient` (src/color.rs): build the domain, then take `len` evenly
spaced samples. -/
def makeGradient (colors : List Hsv) (len : ℕ) : List Hsv :=
  gradientTake (makeGradientDomain colors len) len

/-- Modelled from the spec for comparison: the positions the spec assigns,
`i / (n - 1)` for anchor `i` of `n` anchors. -/
def specAnchorPositions (n : ℕ) : List ℚ :=
  (List.range n).map fun i : ℕ => (i : ℚ) / ((n : ℚ) - 1)

/-! The render engine (src/render.rs). Escapes are carried as tagged items:
`escColor` holds the calculator value that selects the ramp entry (the
floating-point `255.0 * (color_byte / max_byte)` scaling only converts that
value into an index for `colors.term_color`, which the visible-text claims
never inspect), `escAscii` holds the ASCII category selecting one of the five
panel colors, and `escReset` is `TermColor::Reset`. -/

inductive Out where
  | text (s : List Char)
  | escColor (v : ℕ)
  | escAscii (cat : ℕ)
  | escReset
deriving DecidableEq, Repr

/-- `enum RowLabelStyle` of src/render.rs. -/
inductive RowLabel where
  | none | byte | word | line
deriving DecidableEq, Repr

/-- The fields of `RenderOpts` (src/render.rs) the render path reads.  The
gradient anchors, truecolor switch and the five ASCII panel colors only
choose escape payloads, which the model carries symbolically, so `ascii:
Option<AsciiOpts>` is kept as its `is_some` flag. -/
structure RenderConfig where
  log2Base : ℕ
  bytesPerWord : ℕ
  wordsPerLine : ℕ
  displayOffsetStart : ℕ
  limit : ℕ
  asciiEnabled : Bool
  uppercase : Bool
  colorSingleGlyphs : Bool
  rowLabelStyle : RowLabel
  calcExpr : List Op

/-- The mutable state captured by the `draw` closure of
`RenderOpts::render`. -/
structure RState where
  fileOffset : ℕ
  byteIdx : ℕ
  wordIdx : ℕ
  lastByte : Option ℕ
  glyphsInLine : ℕ
  asciiBuf : List ℕ
  out : List Out

def ALPHABET : List Char :=
  "0123456789abcdefghijklmnopqrstuvwxyzABCDEFGHIJKLMNOPQRSTUVWXYZ+/".toList

def ALPHABET_UPPER : List Char :=
  "0123456789ABCDEFGHIJKLMNOPQRSTUVWXYZ".toList

/-- `u64::from_le_bytes` on the 8-byte chunk buffer. -/
def fromLeBytes (buf : List ℕ) : ℕ :=
  buf.foldr (fun b acc => b + 256 * acc) 0

/-- The `write!(w, "0x{:08x}:  ", ...)` hex field: lowercase hex digits,
zero-padded to at least eight characters. -/
def hex08 (n : ℕ) : List Char :=
  let ds := Nat.toDigits 16 n
  List.replicate (8 - ds.length) '0' ++ ds

/-- `u8::is_ascii_uppercase` etc., byte classification of `render_ascii`
(src/render.rs, lines 151-161), producing the index into the five-color
ASCII palette list `[unprintable, upper, lower, number, punct]`. -/
def asciiCategory (b : ℕ) : ℕ :=
  if 65 ≤ b ∧ b ≤ 90 then 1
  else if 97 ≤ b ∧ b ≤ 122 then 2
  else if 48 ≤ b ∧ b ≤ 57 then 3
  else if (33 ≤ b ∧ b ≤ 47) ∨ (58 ≤ b ∧ b ≤ 64) ∨ (91 ≤ b ∧ b ≤ 96) ∨ (123 ≤ b ∧ b ≤ 126) then 4
  else 0

/-- The placeholder glyph `·` (U+00B7) printed for unprintable bytes. -/
def middleDot : Char := Char.ofNat 0xB7

/-- The `render_ascii` closure (src/render.rs, lines 139-179): pad the
pending buffer to a full line with zero bytes, and — only when an ASCII
palette is configured — emit the `  |...|` panel with per-category coloring
deduplicated against a local `last_color`, then clear the buffer.  Without a
palette the padded buffer stays pending (the source's `clear` sits inside the
`if let`). -/
def renderAscii (o : RenderConfig) (st : RState) : RState :=
  let bytesPerLine := o.wordsPerLine * o.bytesPerWord
  let buf := st.asciiBuf ++ List.replicate (bytesPerLine - st.asciiBuf.length) 0
  if o.asciiEnabled then
    let start : List Out × Option ℕ := (st.out ++ [.escReset, .text "  |".toList], Option.none)
    let acc := buf.foldl
      (fun (acc : List Out × Option ℕ) b =>
        let cat := asciiCategory b
        let acc1 := if acc.2 ≠ some cat then (acc.1 ++ [.escAscii cat], some cat) else acc
        let ch := if 0x1f < b ∧ b < 0x7f then Char.ofNat b else middleDot
        (acc1.1 ++ [.text [ch]], acc1.2))
      start
    { st with out := acc.1 ++ [.escReset, .text "|".toList], asciiBuf := [] }
  else
    { st with asciiBuf := buf }

/-- The `draw` closure of `RenderOpts::render` (src/render.rs, lines
189-270), processing one complete or final-partial chunk. -/
def draw (o : RenderConfig) (chunkLen glyphsPerByte : ℕ)
    (buf : List ℕ) (bufLen : ℕ) (st : RState) : RState :=
  let bits0 := fromLeBytes buf
  let st :=
    if st.byteIdx % o.bytesPerWord = 0 then
      let st :=
        if st.wordIdx % o.wordsPerLine = 0 then
          let st :=
            if st.byteIdx ≠ 0 then
              let st := renderAscii o st
              { st with out := st.out ++ [.text ['\n']], glyphsInLine := 0 }
            else st
          let st := { st with out := st.out ++ [.escReset], lastByte := Option.none }
          match o.rowLabelStyle with
          | .none => st
          | .byte =>
              { st with out := st.out ++ [.text ("0x".toList ++ hex08 st.fileOffset ++ ":  ".toList)] }
          | .word =>
              { st with out := st.out
                  ++ [.text ("0x".toList ++ hex08 (st.fileOffset / (chunkLen * o.bytesPerWord)) ++ ":  ".toList)] }
          | .line =>
              { st with out := st.out
                  ++ [.text ("0x".toList
                        ++ hex08 (st.fileOffset / (chunkLen * o.bytesPerWord * o.wordsPerLine)) ++ ":  ".toList)] }
        else if st.byteIdx ≠ 0 then
          { st with out := st.out ++ [.text [' ']], glyphsInLine := st.glyphsInLine + 1 }
        else st
      { st with wordIdx := st.wordIdx + 1 }
    else st
  let st :=
    if ¬ o.colorSingleGlyphs then
      let cb := execute o.calcExpr bits0 (chunkLen * 8)
      if st.lastByte ≠ some cb then
        { st with lastByte := some cb, out := st.out ++ [.escColor cb] }
      else st
    else st
  let res := (List.range glyphsPerByte).foldl
    (fun (p : ℕ × RState) _ =>
      let bits := p.1
      let st := p.2
      let glyph := (bits >>> (chunkLen * 8 - o.log2Base)) &&& (2 ^ o.log2Base - 1)
      let bits := (bits <<< o.log2Base) % U64
      let st :=
        if o.colorSingleGlyphs then
          let cb := execute o.calcExpr glyph o.log2Base
          if st.lastByte ≠ some cb then
            { st with lastByte := some cb, out := st.out ++ [.escColor cb] }
          else st
        else st
      let alphabet := if o.uppercase then ALPHABET_UPPER else ALPHABET
      let st := { st with out := st.out ++ [.text [alphabet.getD glyph '?']],
                          glyphsInLine := st.glyphsInLine + 1 }
      (bits, st))
    (bits0, st)
  let st := res.2
  let st := if o.asciiEnabled then { st with asciiBuf := st.asciiBuf ++ buf.take bufLen } else st
  { st with byteIdx := st.byteIdx + 1 }

/-- The `for octet in self.r.bytes()` loop of `RenderOpts::render`
(src/render.rs, lines 274-291): fill the chunk buffer byte by byte,
incrementing the display offset per byte; on a complete chunk, break if the
limit countdown is exhausted — leaving the chunk in the buffer — else
decrement it and draw.  Returns the final state, buffer and fill count. -/
def renderLoop (o : RenderConfig) (chunkLen glyphsPerByte : ℕ) :
    List ℕ → List ℕ → ℕ → ℕ → RState → RState × List ℕ × ℕ
  | [], buf, cnt, _, st => (st, buf, cnt)
  | octet :: rest, buf, cnt, lim, st =>
      let buf := buf.set cnt octet
      let cnt := cnt + 1
      let st := { st with fileOffset := (st.fileOffset + 1) % U64 }
      if cnt ≠ chunkLen then renderLoop o chunkLen glyphsPerByte rest buf cnt lim st
      else if lim = 0 then (st, buf, cnt)
      else
        renderLoop o chunkLen glyphsPerByte rest (List.replicate 8 0) 0 (lim - 1)
          (draw o chunkLen glyphsPerByte buf cnt st)

/-- `RenderOpts::render` (src/render.rs): run the read loop, draw a pending
partial (or limit-interrupted) chunk, pad the last line and flush the ASCII
panel if bytes are owed, and reset the terminal color with a final
newline. -/
def render (o : RenderConfig) (input : List ℕ) : List Out :=
  let chunkLen := chunkLenOf o.log2Base
  let glyphsPerByte := glyphsPerByteOf o.log2Base
  let st0 : RState :=
    { fileOffset := o.displayOffsetStart, byteIdx := 0, wordIdx := 0,
      lastByte := Option.none, glyphsInLine := 0, asciiBuf := [], out := [] }
  let r := renderLoop o chunkLen glyphsPerByte input (List.replicate 8 0) 0 o.limit st0
  let st := r.1
  let buf := r.2.1
  let cnt := r.2.2
  let st := if cnt ≠ 0 then draw o chunkLen glyphsPerByte buf cnt st else st
  let st :=
    if st.asciiBuf ≠ [] then
      let lineLen := o.wordsPerLine * o.bytesPerWord * glyphsPerByte + (o.wordsPerLine - 1)
      let st := { st with out := st.out ++ List.replicate (lineLen - st.glyphsInLine) (Out.text [' ']) }
      renderAscii o st
    else st
  st.out ++ [.escReset, .text ['\n']]

/-- The visible text of an output sequence: the concatenation of its text
items, with the color escapes dropped. -/
def visible (out : List Out) : List Char :=
  out.foldr (fun o acc => match o with | .text s => s ++ acc | _ => acc) []

def isPrefOf : List Char → List Char → Bool
  | [], _ => true
  | _ :: _, [] => false
  | a :: as, b :: bs => a == b && isPrefOf as bs

/-- Substring containment over character lists. -/
def containsSub (pat : List Char) : List Char → Bool
  | [] => pat.isEmpty
  | c :: rest => isPrefOf pat (c :: rest) || containsSub pat rest

/-- The configuration of the C2 end-to-end test: base 16, 1 byte per word, 16
words per line, identity expression (the default empty `Calc`), byte row
labels, ASCII panel enabled, `-l` left at its `u64::MAX` default. -/
def c2Config : RenderConfig :=
  { log2Base := 4, bytesPerWord := 1, wordsPerLine := 16,
    displayOffsetStart := 0, limit := U64 - 1, asciiEnabled := true,
    uppercase := false, colorSingleGlyphs := false,
    rowLabelStyle := .byte, calcExpr := [] }

/-- The configuration of the C5 early-termination test: the C2 configuration
with the byte-limit countdown set to zero. -/
def c5Config : RenderConfig :=
  { log2Base := 4, bytesPerWord := 1, wordsPerLine := 16,
    displayOffsetStart := 0, limit := 0, asciiEnabled := true,
    uppercase := false, colorSingleGlyphs := false,
    rowLabelStyle := .byte, calcExpr := [] }

/-- C3 counterexample: `make_gradient` divides the anchor index by
`len - 1`, the output sample count, not by `n - 1`, the anchor count: for two
anchors (red and blue in HSV) and three output samples the control positions
are `[0, 1/2]`, not the `[0, 1]` the claim's `i / (n - 1)` assigns. -/
theorem gradient_positions_use_len :
    (makeGradientDomain [((0 : ℚ), (1 : ℚ), (1 : ℚ)), ((240 : ℚ), (1 : ℚ), (1 : ℚ))] 3).map Prod.fst
      = [0, 1 / 2]
    ∧ specAnchorPositions 2 = [0, 1]
    ∧ ([0, (1 : ℚ) / 2] : List ℚ) ≠ [0, 1] := by
  refine ⟨?_, ?_, ?_⟩
  · simp [makeGradientDomain, List.enum, List.enumFrom]
    norm_num
  · simp [specAnchorPositions, List.range_succ]
    norm_num
  · intro h
    simp at h

/-- C3 (amended): `make_gradient` assigns anchor `i` the position
`i / (length - 1)` where `length` is the output sample count; the anchors are
still evenly spaced and `Gradient::take` samples across the anchors' own
span, so the interpolation is as the claim describes: `build([red, blue], 3)`
yields the two anchors with their midpoint mix between them, and
`build([red], 5)` yields five copies of the single anchor. -/
theorem gradient_interpolation :
    (∀ a b : Hsv, makeGradient [a, b] 3 = [a, mix a b (1 / 2), b])
    ∧ (∀ c : Hsv, makeGradient [c] 5 = List.replicate 5 c)
    ∧ (∀ (colors : List Hsv) (len : ℕ),
        (makeGradientDomain colors len).map Prod.fst
          = (List.range colors.length).map fun i : ℕ => (i : ℚ) / ((len : ℚ) - 1)) := by
  refine ⟨?_, ?_, ?_⟩
  · intro a b
    simp [makeGradient, gradientTake, makeGradientDomain, List.enum, List.enumFrom,
      List.range_succ, gradientGet, gradientGo, mix]
    norm_num
  · intro c
    simp [makeGradient, gradientTake, makeGradientDomain, List.enum, List.enumFrom,
      List.range_succ, gradientGet, gradientGo, mix]
  · intro colors len
    unfold makeGradientDomain
    rw [List.map_map, ← List.enum_map_fst colors, List.map_map]
    rfl

/-- C2: end-to-end evaluation of the render engine on input bytes
`[0x41, 0x42]`, base 16, 1 byte per word, 16 words per line, identity
expression, byte row labels, ASCII panel enabled.  The visible output's row
label is `0x00000001:` — `file_offset` is incremented before the first chunk
is drawn — not the claimed `0x00000000:`; the glyph pairs `41` and `42` do
appear separated by a single space; and the ASCII panel is zero-padded to the
16-byte line and rendered as `|AB··············|`, so the claimed literal
panel `|AB|` never occurs. -/
theorem render_c2_eval :
    visible (render c2Config [0x41, 0x42])
      = "0x00000001:  41 42".toList ++ List.replicate 42 ' '
        ++ "  |AB".toList ++ List.replicate 14 middleDot ++ "|\n".toList
    ∧ containsSub ("41 42".toList) (visible (render c2Config [0x41, 0x42])) = true
    ∧ containsSub ("0x00000000:".toList) (visible (render c2Config [0x41, 0x42])) = false
    ∧ containsSub ("|AB|".toList) (visible (render c2Config [0x41, 0x42])) = false := by
  decide

/-- C5: with the byte-limit countdown already at zero, the read loop breaks
before drawing — but the complete chunk left in the buffer is then drawn by
the post-loop partial-chunk call, so the byte `0x41` read past the limit is
still rendered (and the ASCII panel is flushed for it). -/
theorem render_c5_limit_overrun :
    visible (render c5Config [0x41])
      = "0x00000001:  41".toList ++ List.replicate 45 ' '
        ++ "  |A".toList ++ List.replicate 15 middleDot ++ "|\n".toList
    ∧ containsSub ("41".toList) (visible (render c5Config [0x41])) = true := by
  decide

/-- C7: the guard in `real_main` tests `base == 16`, not `base == 64`: the
uppercase flag is accepted together with base 64 (contradicting the guard's
own error message "eks: -u cannot be used with base 64" and the comment in
src/render.rs) and rejected together with base 16, while the spec-modelled
guard rejects exactly base 64. -/
theorem uppercase_guard_checks_wrong_base :
    uppercaseGuardRejects true 64 = false
    ∧ uppercaseGuardRejects true 16 = true
    ∧ uppercaseGuardRejects true 2 = false
    ∧ uppercaseGuardRejects true 4 = false
    ∧ uppercaseGuardRejects true 8 = false
    ∧ uppercaseGuardRejects true 32 = false
    ∧ specUppercaseGuardRejects true 64 = true
    ∧ specUppercaseGuardRejects true 16 = false := by
  decide

/-- C10: for each supported base (log2(base) in 1..6), the render engine's
chunk length equals `lcm(8, log2 base) / 8` — 1, 1, 3, 1, 5, 3 bytes — and
`glyphs_per_byte` equals `(8 * chunk_len) / log2 base` — 8, 4, 8, 2, 8, 4
glyphs per chunk. -/
theorem chunk_len_matches_lcm :
    (chunkLenOf 1 = Nat.lcm 8 1 / 8 ∧ chunkLenOf 2 = Nat.lcm 8 2 / 8
      ∧ chunkLenOf 3 = Nat.lcm 8 3 / 8 ∧ chunkLenOf 4 = Nat.lcm 8 4 / 8
      ∧ chunkLenOf 5 = Nat.lcm 8 5 / 8 ∧ chunkLenOf 6 = Nat.lcm 8 6 / 8)
    ∧ (chunkLenOf 1 = 1 ∧ chunkLenOf 2 = 1 ∧ chunkLenOf 3 = 3
      ∧ chunkLenOf 4 = 1 ∧ chunkLenOf 5 = 5 ∧ chunkLenOf 6 = 3)
    ∧ (glyphsPerByteOf 1 = 8 * chunkLenOf 1 / 1 ∧ glyphsPerByteOf 2 = 8 * chunkLenOf 2 / 2
      ∧ glyphsPerByteOf 3 = 8 * chunkLenOf 3 / 3 ∧ glyphsPerByteOf 4 = 8 * chunkLenOf 4 / 4
      ∧ glyphsPerByteOf 5 = 8 * chunkLenOf 5 / 5 ∧ glyphsPerByteOf 6 = 8 * chunkLenOf 6 / 6)
    ∧ (glyphsPerByteOf 1 = 8 ∧ glyphsPerByteOf 2 = 4 ∧ glyphsPerByteOf 3 = 8
      ∧ glyphsPerByteOf 4 = 2 ∧ glyphsPerByteOf 5 = 8 ∧ glyphsPerByteOf 6 = 4) := by
  decide

end Ox
